import Mathlib

/-!
Verification development for the ERA reliability-monitoring pipeline
(`src/data.py`).  The Python source is shallowly embedded: pandas
dataframes become lists of records, numeric cells become rationals,
timestamps become integer epoch seconds, nullable cells become `Option`,
and the external parsing routines of pandas (`pd.to_datetime`,
`pd.to_numeric`, `strftime`) are abstracted as explicit function
parameters, so every theorem below holds for every possible behaviour of
those parsers.
-/

/-! ## Name Normalizer (`clean_feeder_name`, data.py lines 28-34) -/

/-- The set of characters Python treats as whitespace (`str.isspace`,
used by `str.strip()` and `str.split()` with no arguments). -/
def pyIsSpace (c : Char) : Bool :=
  c = ' ' || c = '\t' || c = '\n' || c = '\u000b' || c = '\u000c' ||
  c = '\r' || c = '\u001c' || c = '\u001d' || c = '\u001e' ||
  c = '\u001f' || c = '\u0085' || c = ' ' || c = ' ' ||
  (0x2000 ≤ c.toNat && c.toNat ≤ 0x200a) ||
  c = ' ' || c = ' ' || c = ' ' || c = ' ' || c = '　'

/-- The non-breaking-space character replaced at data.py line 32. -/
def nbsp : Char := ' '

/-- Precomposed letter `é` (U+00E9), a decomposable character used to
exercise the Unicode-normalization step. -/
def eAcute : Char := 'é'

/-- Combining acute accent (U+0301). -/
def combAcute : Char := '́'

/-- Spacing acute accent `´` (U+00B4), whose NFKD decomposition begins
with an ordinary space: compatibility decomposition can introduce
whitespace that was not in the input. -/
def acuteAccent : Char := '´'

/-- Python `str.strip()`: drop leading and trailing whitespace
(data.py line 30). -/
def pyStrip (l : List Char) : List Char :=
  ((l.dropWhile pyIsSpace).reverse.dropWhile pyIsSpace).reverse

/-- Per-character compatibility decomposition table modelling
`unicodedata.normalize("NFKD", ·)` (data.py line 31) on the fragment of
Unicode exercised in this development: U+00A0 (no-break space) has
compatibility decomposition to an ordinary space, U+00E9 (`é`) has
canonical decomposition to `e` followed by U+0301, U+00B4 (the spacing
acute accent, a spacing diacritic) has compatibility decomposition to a
space followed by U+0301 — so NFKD can turn a non-whitespace character
into a sequence that starts with whitespace — and the remaining
characters used here decompose to themselves.  NFKD applies the
decomposition with no recomposition step. -/
def nfkdChar (c : Char) : List Char :=
  if c = nbsp then [' ']
  else if c = eAcute then ['e', combAcute]
  else if c = acuteAccent then [' ', combAcute]
  else [c]

/-- `unicodedata.normalize("NFKD", s)`: concatenate the compatibility
decompositions of the characters of `s`. -/
def nfkd (l : List Char) : List Char := l.flatMap nfkdChar

/-- `name.replace('\xa0', ' ')` (data.py line 32). -/
def replaceNbsp (l : List Char) : List Char :=
  l.map fun c => if c = nbsp then ' ' else c

/-- Worker for Python `str.split()` with no separator: `acc` holds the
(reversed) characters of the token currently being read. -/
def pySplitAux : List Char → List Char → List (List Char)
  | [], acc => if acc = [] then [] else [acc.reverse]
  | c :: cs, acc =>
    if pyIsSpace c then
      if acc = [] then pySplitAux cs [] else acc.reverse :: pySplitAux cs []
    else pySplitAux cs (c :: acc)

/-- Python `str.split()` with no separator: split on runs of whitespace,
dropping empty tokens. -/
def pySplit (l : List Char) : List (List Char) := pySplitAux l []

/-- Python `' '.join(tokens)`: concatenate the tokens with a single
ordinary space between consecutive tokens. -/
def joinSp : List (List Char) → List Char
  | [] => []
  | [t] => t
  | t :: ts => t ++ ' ' :: joinSp ts

/-- `clean_feeder_name` (data.py lines 28-34) on character lists:
strip, NFKD-normalize, replace no-break spaces, re-join the
whitespace-separated tokens with single spaces.  `.title()` is
deliberately not applied (source comment: preserve acronyms). -/
def cleanList (l : List Char) : List Char :=
  joinSp (pySplit (replaceNbsp (nfkd (pyStrip l))))

/-- `clean_feeder_name` on strings. -/
def clean_feeder_name (s : String) : String := (cleanList s.toList).asString

/-- Modelled from the spec: per-character canonical decomposition,
the first half of the "canonical-decomposition-then-recomposition"
normalization named by the specification (which is NFC, not the NFKD the
source applies).  U+00E9 canonically decomposes to `e` + U+0301; U+00A0
has no canonical decomposition (only a compatibility one). -/
def canonDecompChar (c : Char) : List Char :=
  if c = eAcute then ['e', combAcute] else [c]

/-- Modelled from the spec: canonical decomposition of a string. -/
def canonDecomp (l : List Char) : List Char := l.flatMap canonDecompChar

/-- Modelled from the spec: canonical recomposition, the second half of
the "canonical-decomposition-then-recomposition" normalization; the pair
`e` + U+0301 recomposes to U+00E9. -/
def recompose : List Char → List Char
  | 'e' :: c :: rest =>
    if c = combAcute then eAcute :: recompose rest
    else 'e' :: recompose (c :: rest)
  | c :: rest => c :: recompose rest
  | [] => []

/-- Modelled from the spec: full canonical-decomposition-then-
recomposition normalization (NFC) on the modelled Unicode fragment. -/
def nfc (l : List Char) : List Char := recompose (canonDecomp l)

/-- Collapse every run of whitespace to a single ordinary space
(the spec's description of the final normalization step): a whitespace
character followed by further whitespace is dropped, so each run
contributes exactly one ordinary space. -/
def collapseRuns : List Char → List Char
  | [] => []
  | [c] => if pyIsSpace c then [' '] else [c]
  | c :: d :: cs =>
    if pyIsSpace c then
      if pyIsSpace d then collapseRuns (d :: cs)
      else ' ' :: collapseRuns (d :: cs)
    else c :: collapseRuns (d :: cs)

/-- Modelled from the spec: the Name Normalizer exactly as the claim
states it — trim surrounding whitespace, apply canonical-decomposition-
then-recomposition (NFC) normalization, replace no-break spaces with
ordinary spaces, collapse whitespace runs to single spaces. -/
def specNormalize (s : String) : String :=
  (collapseRuns (replaceNbsp (nfc (pyStrip s.toList)))).asString

/-- The spec's normalizer amended as the code forces: the normalization
form is NFKD (decomposition without recomposition) rather than NFC, and
— because the trim runs before the decomposition — the final
re-spacing step both collapses every internal run of whitespace to a
single space and discards leading/trailing whitespace.  Whitespace can
sit at the boundary at that point only when the decomposition itself
produced it (e.g. NFKD of the spacing diacritic U+00B4 begins with a
space), and the code's `' '.join(name.split())` removes it entirely
rather than keeping a single space. -/
def amendedSpecNormalize (s : String) : String :=
  (collapseRuns (pyStrip (replaceNbsp (nfkd (pyStrip s.toList))))).asString

/-! ## Record Ingestor and Dataset Merger (data.py lines 57-84) -/

/-- One raw worksheet record, after the column-name strip of data.py
line 64: the cells the pipeline reads.  Timestamp and customer cells are
kept as raw strings handed to the (abstracted) pandas parsers; a
`fault_category` of `none` models a missing (NaN) cell. -/
structure RawRow where
  feeder_name : String
  interruption_time : String
  restoration_time : String
  customer_no : String
  fault_category : Option String
deriving DecidableEq

/-- The external parsing collaborators used by the ingestion loop,
abstracted: `parseDT` models `pd.to_datetime(·, errors="coerce",
dayfirst=True)` returning epoch seconds, `parseNum` models
`pd.to_numeric(·, errors="coerce")`, and `weekFmt` models
`strftime("%Y-W%U")` on a timestamp. -/
structure ExtFns where
  parseDT : String → Option ℤ
  parseNum : String → Option ℚ
  weekFmt : ℤ → String

/-- One record after the per-worksheet transformations of data.py lines
63-78, before the `dropna` of line 79: every derived field that pandas
would hold as NaN/NaT is an `Option`. -/
structure PreRow where
  feeder_name : String
  month : String
  interruption_time : Option ℤ
  restoration_time : Option ℤ
  duration_hr : Option ℚ
  date : Option ℤ
  week : Option String
  customer_count : Option ℚ
  fault_category : Option String
deriving DecidableEq

/-- One cleaned outage record, as it appears in the unified dataset
after the `dropna(subset=["Customer No", "Duration (hr)",
"Fault Category"])` of data.py line 79: those three fields are
guaranteed present. -/
structure Row where
  feeder_name : String
  month : String
  interruption_time : Option ℤ
  restoration_time : Option ℤ
  duration_hr : ℚ
  date : Option ℤ
  week : Option String
  customer_count : ℚ
  fault_category : String
deriving DecidableEq

/-- Lines 63-78 of data.py for a single record: tag with the worksheet
title (`Month`), normalize the feeder name, parse the two timestamps
(unparseable cells coerce to null), derive the duration in hours (null
propagates), the calendar date (day number of the interruption instant)
and the week label, and coerce the customer count to a number. -/
def prepRow (ext : ExtFns) (month : String) (rw : RawRow) : PreRow :=
  let it := ext.parseDT rw.interruption_time
  let rt := ext.parseDT rw.restoration_time
  { feeder_name := clean_feeder_name rw.feeder_name
    month := month
    interruption_time := it
    restoration_time := rt
    duration_hr := match it, rt with
      | some i, some r => some (((r - i : ℤ) : ℚ) / 3600)
      | _, _ => none
    date := it.map fun t => t.fdiv 86400
    week := it.map ext.weekFmt
    customer_count := ext.parseNum rw.customer_no
    fault_category := rw.fault_category }

/-- The row-level effect of `dropna(subset=["Customer No",
"Duration (hr)", "Fault Category"])` (data.py line 79): a record is
retained, with its fields unchanged, exactly when all three required
fields are present. -/
def cleanRow (p : PreRow) : Option Row :=
  match p.customer_count, p.duration_hr, p.fault_category with
  | some c, some d, some f =>
    some { feeder_name := p.feeder_name
           month := p.month
           interruption_time := p.interruption_time
           restoration_time := p.restoration_time
           duration_hr := d
           date := p.date
           week := p.week
           customer_count := c
           fault_category := f }
  | _, _, _ => none

/-- The body of the ingestion loop (data.py lines 63-79) for one
worksheet: transform every raw record, then drop the invalid ones. -/
def ingest (ext : ExtFns) (month : String) (raws : List RawRow) : List Row :=
  (raws.map (prepRow ext month)).filterMap cleanRow

/-- The ingestion loop over all worksheets (data.py lines 57-81): a
worksheet whose `get_all_records()` list is empty is skipped
(`if not data: continue`); every other worksheet contributes its cleaned
table — possibly empty — to `all_data`. -/
def loadAll (ext : ExtFns) (sheets : List (String × List RawRow)) :
    List (List Row) :=
  sheets.filterMap fun s =>
    if s.2.isEmpty then none else some (ingest ext s.1 s.2)

/-- `pd.concat(all_data, ignore_index=True)` (data.py line 84):
concatenates the collected tables, raising
`ValueError: No objects to concatenate` when the list is empty. -/
def pdConcat (tables : List (List Row)) : Except String (List Row) :=
  if tables = [] then Except.error "No objects to concatenate"
  else Except.ok tables.flatten

/-! ## Metrics Aggregator (`compute_metrics`, data.py lines 36-52) -/

/-- One row of a metrics table produced by `compute_metrics` after
`reset_index()`: the grouping-key values and the three indices. -/
structure MetricsRow (K : Type) where
  key : K
  SAIDI : ℚ
  SAIFI : ℚ
  CAIDI : ℚ
deriving DecidableEq

/-- `g["Customer No"].sum()` over a group. -/
def sumC (g : List Row) : ℚ := (g.map Row.customer_count).sum

/-- `(g["Duration (hr)"] * g["Customer No"]).sum()` over a group. -/
def sumW (g : List Row) : ℚ :=
  (g.map fun r => r.duration_hr * r.customer_count).sum

/-- The `pd.Series` built for one group by the lambda of data.py lines
40-49, transcribed term for term. -/
def groupMetrics {K : Type} (k : K) (g : List Row) : MetricsRow K :=
  { key := k
    SAIDI := if sumC g > 0 then sumW g / sumC g else 0
    SAIFI := if sumC g > 0 then sumC g / sumC g else 0
    CAIDI := if sumC g > 0 then (sumW g / sumC g) / (sumC g / sumC g) else 0 }

/-- `compute_metrics(df, group_cols)` (data.py lines 36-52): one metrics
row per distinct grouping-key value occurring in `df`, computed from the
sub-table of rows carrying that key.  (pandas orders the groups by
sorted key; the ordering of the output rows is irrelevant to every
property stated below, which quantify over membership.) -/
def compute_metrics {K : Type} [DecidableEq K] (key : Row → K)
    (df : List Row) : List (MetricsRow K) :=
  ((df.map key).dedup).map fun k =>
    groupMetrics k (df.filter fun r => key r = k)

/-! ## Query/Filter Layer (data.py lines 104-129) -/

/-- The three dashboard granularities (sidebar radio, data.py line 94). -/
inductive Granularity
  | daily
  | weekly
  | monthly
deriving DecidableEq

/-- The grouping-key tuple type of each granularity (data.py lines
87-89): feeder name and month, plus the date for daily and the week
label for weekly. -/
def GKey : Granularity → Type
  | .daily => String × String × Option ℤ
  | .weekly => String × String × Option String
  | .monthly => String × String

instance instDecEqGKey : (g : Granularity) → DecidableEq (GKey g)
  | .daily => inferInstanceAs (DecidableEq (String × String × Option ℤ))
  | .weekly => inferInstanceAs (DecidableEq (String × String × Option String))
  | .monthly => inferInstanceAs (DecidableEq (String × String))

/-- The grouping columns passed to `compute_metrics` for each
granularity (data.py lines 87-89). -/
def groupKey : (g : Granularity) → Row → GKey g
  | .daily => fun r => (r.feeder_name, r.month, r.date)
  | .weekly => fun r => (r.feeder_name, r.month, r.week)
  | .monthly => fun r => (r.feeder_name, r.month)

/-- `daily_metrics` / `weekly_metrics` / `monthly_metrics`
(data.py lines 87-89) and the table selection of lines 104-112. -/
def metricsFor (g : Granularity) (df : List Row) : List (MetricsRow (GKey g)) :=
  compute_metrics (groupKey g) df

/-- The `Month` column of a metrics-table key. -/
def keyMonth : (g : Granularity) → GKey g → String
  | .daily => fun k => k.2.1
  | .weekly => fun k => k.2.1
  | .monthly => fun k => k.2

/-- The `Feeder Name` column of a metrics-table key. -/
def keyFeeder : (g : Granularity) → GKey g → String
  | .daily => fun k => k.1
  | .weekly => fun k => k.1
  | .monthly => fun k => k.1

/-- Comparison of possibly-null column values, as `sort_values`
orders them: null (NaT/NaN) sorts last (`na_position='last'`). -/
def optLe {α : Type} [LinearOrder α] : Option α → Option α → Bool
  | some a, some b => decide (a ≤ b)
  | some _, none => true
  | none, some _ => false
  | none, none => true

/-- The ordering used by `sort_values(group_field)` for each granularity
(data.py lines 104-112 and 123): the `Date` column for daily, the `Week`
column for weekly, the `Month` column for monthly. -/
def groupLe : (g : Granularity) → GKey g → GKey g → Bool
  | .daily => fun a b => optLe a.2.2 b.2.2
  | .weekly => fun a b => optLe a.2.2 b.2.2
  | .monthly => fun a b => decide (a.2 ≤ b.2)

/-- `groupLe` lifted to metrics rows, as a decidable relation. -/
def rowLe (g : Granularity) (a b : MetricsRow (GKey g)) : Prop :=
  groupLe g a.key b.key = true

instance instDecRowLe (g : Granularity) : DecidableRel (rowLe g) :=
  fun a b => inferInstanceAs (Decidable (groupLe g a.key b.key = true))

/-- The boolean-mask filter of data.py lines 114-117:
`metrics_df[(metrics_df["Month"] == selected_month) &
(metrics_df["Feeder Name"] == selected_feeder)]`. -/
def filtered_metrics (g : Granularity) (df : List Row) (m f : String) :
    List (MetricsRow (GKey g)) :=
  (metricsFor g df).filter fun r =>
    (keyMonth g r.key == m) && (keyFeeder g r.key == f)

/-- The Query/Filter Layer (data.py lines 114-129): the "current"
snapshot is `filtered_metrics.sort_values(group_field).iloc[-1]` when
the filtered set is non-empty and an explicit no-data signal (`none`,
rendered as the warning of line 129) otherwise; the trend charts
consume the full filtered set. -/
def queryLayer (g : Granularity) (df : List Row) (m f : String) :
    Option (MetricsRow (GKey g)) × List (MetricsRow (GKey g)) :=
  let fm := filtered_metrics g df m f
  (if fm.isEmpty then none
   else (List.insertionSort (rowLe g) fm).getLast?, fm)

/-! ## Auxiliary definitions: token structure, row agreement,
concrete witness data -/

/-- Every character of the list is Python whitespace. -/
def allSpace (l : List Char) : Prop := ∀ c ∈ l, pyIsSpace c = true

/-- No character of the list is Python whitespace. -/
def noSpace (l : List Char) : Prop := ∀ c ∈ l, pyIsSpace c = false

/-- The token finished by the end of input or by a whitespace character:
empty accumulators produce no token. -/
def emitTok (acc : List Char) : List (List Char) :=
  if acc = [] then [] else [acc.reverse]

/-- The first character, if any, is not whitespace. -/
def headNonspace (s : List Char) : Prop :=
  ∀ c, s.head? = some c → pyIsSpace c = false

/-- The last character, if any, is not whitespace. -/
def lastNonspace (s : List Char) : Prop :=
  ∀ c, s.getLast? = some c → pyIsSpace c = false

/-- Rows that agree on the grouping columns (feeder, month, date, week)
and on `duration_hr` and `customer_count`; `fault_category` and the two
raw timestamps are unconstrained. -/
def agreeVisible (a b : Row) : Prop :=
  a.feeder_name = b.feeder_name ∧ a.month = b.month ∧
  a.date = b.date ∧ a.week = b.week ∧
  a.duration_hr = b.duration_hr ∧ a.customer_count = b.customer_count

/-! ## Witness fixtures: small concrete datasets -/

/-- A concrete cleaned record: a 3-hour outage affecting 2 customers. -/
def wRow1 : Row :=
  { feeder_name := "F1", month := "Jan", interruption_time := some 0,
    restoration_time := some 10800, duration_hr := 3, date := some 0,
    week := some "2024-W00", customer_count := 2,
    fault_category := "Equipment" }

/-- A one-row unified dataset. -/
def wDf : List Row := [wRow1]

/-- The record `wRow1` with a different fault category and different raw
timestamps, equal on all aggregation-relevant fields. -/
def wRow1' : Row :=
  { feeder_name := "F1", month := "Jan", interruption_time := some 7,
    restoration_time := some 99999, duration_hr := 3, date := some 0,
    week := some "2024-W00", customer_count := 2,
    fault_category := "Vegetation" }

/-- A concrete cleaned record with a negative customer count, as the
ingestion's `pd.to_numeric` coercion can produce. -/
def wRowNeg : Row :=
  { feeder_name := "F2", month := "Feb", interruption_time := some 0,
    restoration_time := some 3600, duration_hr := 1, date := some 0,
    week := some "2024-W05", customer_count := -5,
    fault_category := "Other" }

/-- A parser bundle under which no cell parses: every timestamp and
every customer count coerces to null. -/
def badExt : ExtFns :=
  { parseDT := fun _ => none, parseNum := fun _ => none,
    weekFmt := fun _ => "" }

/-- A raw record that is present in its worksheet but whose customer
count fails numeric coercion, so cleaning drops it. -/
def badRaw : RawRow :=
  { feeder_name := "Feeder A", interruption_time := "01/01/2024 00:00",
    restoration_time := "01/01/2024 02:00", customer_no := "abc",
    fault_category := some "Equipment" }

/-! ## Helper lemmas: Metrics Aggregator -/

lemma sumC_nonneg (g : List Row) (h : ∀ r ∈ g, 0 ≤ r.customer_count) :
    0 ≤ sumC g := by
  apply List.sum_nonneg
  intro q hq
  obtain ⟨r, hr, rfl⟩ := List.mem_map.mp hq
  exact h r hr

lemma map_key_eq_of_agree {K : Type} (key : Row → K)
    (hkey : ∀ a b, agreeVisible a b → key a = key b) :
    ∀ {d1 d2 : List Row}, List.Forall₂ agreeVisible d1 d2 →
      d1.map key = d2.map key := by
  intro d1 d2 h
  induction h with
  | nil => rfl
  | cons hab _ ih => simp [hkey _ _ hab, ih]

lemma sums_filter_eq_of_agree {K : Type} [DecidableEq K] (key : Row → K)
    (hkey : ∀ a b, agreeVisible a b → key a = key b) (k : K) :
    ∀ {d1 d2 : List Row}, List.Forall₂ agreeVisible d1 d2 →
      sumC (d1.filter fun r => key r = k) =
        sumC (d2.filter fun r => key r = k) ∧
      sumW (d1.filter fun r => key r = k) =
        sumW (d2.filter fun r => key r = k) := by
  intro d1 d2 h
  induction h with
  | nil => exact ⟨rfl, rfl⟩
  | cons hab htl ih =>
    rename_i a b l1 l2
    have hk := hkey _ _ hab
    obtain ⟨-, -, -, -, hd, hc⟩ := hab
    by_cases hka : key a = k
    · rw [List.filter_cons_of_pos (by simpa using hka),
        List.filter_cons_of_pos (by simp [← hk, hka])]
      have ih1 := ih.1
      have ih2 := ih.2
      simp only [sumC, sumW] at ih1 ih2
      constructor
      · simp only [sumC, List.map_cons, List.sum_cons, hc, ih1]
      · simp only [sumW, List.map_cons, List.sum_cons, hc, hd, ih2]
    · rw [List.filter_cons_of_neg (by simpa using hka),
        List.filter_cons_of_neg (by simp [← hk, hka])]
      exact ih

lemma compute_metrics_congr {K : Type} [DecidableEq K] (key : Row → K)
    (hkey : ∀ a b, agreeVisible a b → key a = key b)
    {d1 d2 : List Row} (h : List.Forall₂ agreeVisible d1 d2) :
    compute_metrics key d1 = compute_metrics key d2 := by
  unfold compute_metrics
  rw [map_key_eq_of_agree key hkey h]
  apply List.map_congr_left
  intro k _
  have hs := sums_filter_eq_of_agree key hkey k h
  unfold groupMetrics
  rw [hs.1, hs.2]

/-! ## Helper lemmas: Query/Filter Layer -/

lemma optLe_refl {α : Type} [LinearOrder α] (a : Option α) :
    optLe a a = true := by
  cases a <;> simp [optLe]

lemma optLe_total {α : Type} [LinearOrder α] (a b : Option α) :
    optLe a b = true ∨ optLe b a = true := by
  cases a <;> cases b <;> simp [optLe, le_total]

lemma optLe_trans {α : Type} [LinearOrder α] {a b c : Option α}
    (h1 : optLe a b = true) (h2 : optLe b c = true) : optLe a c = true := by
  cases a <;> cases b <;> cases c <;> simp_all [optLe]
  exact le_trans h1 h2

lemma rowLe_refl (g : Granularity) (a : MetricsRow (GKey g)) : rowLe g a a := by
  cases g <;> simp [rowLe, groupLe, optLe_refl]

lemma rowLe_total (g : Granularity) (a b : MetricsRow (GKey g)) :
    rowLe g a b ∨ rowLe g b a := by
  cases g <;> simp only [rowLe, groupLe] <;>
    first
      | exact optLe_total _ _
      | simpa using le_total _ _

lemma rowLe_trans (g : Granularity) {a b c : MetricsRow (GKey g)}
    (h1 : rowLe g a b) (h2 : rowLe g b c) : rowLe g a c := by
  cases g <;> simp only [rowLe, groupLe] at h1 h2 ⊢
  · exact optLe_trans h1 h2
  · exact optLe_trans h1 h2
  · exact decide_eq_true (le_trans (of_decide_eq_true h1) (of_decide_eq_true h2))

lemma rel_getLast_of_sorted {α : Type} {r : α → α → Prop}
    (hrefl : ∀ a, r a a) :
    ∀ (l : List α) (hl : l ≠ []), l.Sorted r → ∀ x ∈ l, r x (l.getLast hl) := by
  intro l
  induction l with
  | nil => intro hl; exact absurd rfl hl
  | cons a t ih =>
    intro _ hs x hx
    cases t with
    | nil =>
      simp at hx
      subst hx
      exact hrefl x
    | cons b t2 =>
      rw [List.getLast_cons (by simp)]
      rcases List.mem_cons.mp hx with rfl | hx2
      · exact (List.sorted_cons.mp hs).1 _ (List.getLast_mem _)
      · exact ih (by simp) (List.sorted_cons.mp hs).2 x hx2

/-! ## Claims about the Metrics Aggregator -/

/-- C1: for every group produced by the Metrics Aggregator, with `C` the
sum of `customer_count` and `W` the sum of `duration_hr * customer_count`
over the group's rows, `SAIDI = W / C` if `C > 0` else `0`, `SAIFI = 1`
if `C > 0` else `0`, and `CAIDI = SAIDI` if `C > 0` else `0`. -/
theorem C1_aggregator_group_formulas {K : Type} [DecidableEq K]
    (key : Row → K) (df : List Row) (mr : MetricsRow K)
    (h : mr ∈ compute_metrics key df) :
    (mr.SAIDI = if sumC (df.filter fun r => key r = mr.key) > 0
      then sumW (df.filter fun r => key r = mr.key) /
        sumC (df.filter fun r => key r = mr.key) else 0) ∧
    (mr.SAIFI = if sumC (df.filter fun r => key r = mr.key) > 0
      then 1 else 0) ∧
    (mr.CAIDI = if sumC (df.filter fun r => key r = mr.key) > 0
      then mr.SAIDI else 0) := by
  obtain ⟨k, -, rfl⟩ := List.mem_map.mp h
  by_cases hc : sumC (df.filter fun r => key r = k) > 0
  · simp [groupMetrics, hc, div_self (ne_of_gt hc)]
  · simp [groupMetrics, hc]

/-- C1 witness: the theorem applied to the one-row dataset `wDf` grouped
monthly. -/
theorem C1_witness :
    (groupMetrics (("F1", "Jan") : GKey .monthly) wDf ∈
      compute_metrics (groupKey .monthly) wDf) ∧
    ((groupMetrics (("F1", "Jan") : GKey .monthly) wDf).SAIDI =
      if sumC (wDf.filter fun r => groupKey .monthly r =
          (groupMetrics (("F1", "Jan") : GKey .monthly) wDf).key) > 0
      then sumW (wDf.filter fun r => groupKey .monthly r =
          (groupMetrics (("F1", "Jan") : GKey .monthly) wDf).key) /
        sumC (wDf.filter fun r => groupKey .monthly r =
          (groupMetrics (("F1", "Jan") : GKey .monthly) wDf).key) else 0) ∧
    ((groupMetrics (("F1", "Jan") : GKey .monthly) wDf).SAIFI =
      if sumC (wDf.filter fun r => groupKey .monthly r =
          (groupMetrics (("F1", "Jan") : GKey .monthly) wDf).key) > 0
      then 1 else 0) ∧
    ((groupMetrics (("F1", "Jan") : GKey .monthly) wDf).CAIDI =
      if sumC (wDf.filter fun r => groupKey .monthly r =
          (groupMetrics (("F1", "Jan") : GKey .monthly) wDf).key) > 0
      then (groupMetrics (("F1", "Jan") : GKey .monthly) wDf).SAIDI else 0) :=
  ⟨List.mem_singleton.mpr rfl,
    C1_aggregator_group_formulas (groupKey .monthly) wDf _
      (List.mem_singleton.mpr rfl)⟩

/-- C4: in any Metrics Aggregator output over rows with non-negative
customer counts, `SAIDI = SAIFI = CAIDI = 0` hold together iff the
group's total customer count is exactly `0`. -/
theorem C4_zero_metrics_iff_zero_customers {K : Type} [DecidableEq K]
    (key : Row → K) (df : List Row)
    (hnn : ∀ r ∈ df, 0 ≤ r.customer_count)
    (mr : MetricsRow K) (h : mr ∈ compute_metrics key df) :
    (mr.SAIDI = 0 ∧ mr.SAIFI = 0 ∧ mr.CAIDI = 0) ↔
      sumC (df.filter fun r => key r = mr.key) = 0 := by
  obtain ⟨k, -, rfl⟩ := List.mem_map.mp h
  have hge : 0 ≤ sumC (df.filter fun r => key r = k) :=
    sumC_nonneg _ fun r hr => hnn r (List.mem_filter.mp hr).1
  by_cases hc : sumC (df.filter fun r => key r = k) > 0
  · constructor
    · intro hz
      have := hz.2.1
      rw [show (groupMetrics k (df.filter fun r => key r = k)).SAIFI =
          sumC (df.filter fun r => key r = k) /
            sumC (df.filter fun r => key r = k) by simp [groupMetrics, hc],
        div_self (ne_of_gt hc)] at this
      exact absurd this one_ne_zero
    · intro hz
      exact absurd hz (ne_of_gt hc)
  · have hz : sumC (df.filter fun r => key r = k) = 0 :=
      le_antisymm (not_lt.mp hc) hge
    simp [groupMetrics, hc, hz]

/-- C4 witness: the theorem applied to the one-row dataset `wDf`
(customer count 2 > 0) grouped monthly. -/
theorem C4_witness :
    (∀ r ∈ wDf, 0 ≤ r.customer_count) ∧
    (groupMetrics (("F1", "Jan") : GKey .monthly) wDf ∈
      compute_metrics (groupKey .monthly) wDf) ∧
    (((groupMetrics (("F1", "Jan") : GKey .monthly) wDf).SAIDI = 0 ∧
      (groupMetrics (("F1", "Jan") : GKey .monthly) wDf).SAIFI = 0 ∧
      (groupMetrics (("F1", "Jan") : GKey .monthly) wDf).CAIDI = 0) ↔
      sumC (wDf.filter fun r => groupKey .monthly r =
        (groupMetrics (("F1", "Jan") : GKey .monthly) wDf).key) = 0) :=
  ⟨by rintro r hr
      simp only [wDf, List.mem_singleton] at hr
      subst hr
      show (0 : ℚ) ≤ 2
      norm_num,
    List.mem_singleton.mpr rfl,
    C4_zero_metrics_iff_zero_customers (groupKey .monthly) wDf
      (by rintro r hr
          simp only [wDf, List.mem_singleton] at hr
          subst hr
          show (0 : ℚ) ≤ 2
          norm_num)
      _ (List.mem_singleton.mpr rfl)⟩

/-- C9: a group whose total customer count is negative (possible since
`pd.to_numeric` accepts negative values) gets `SAIDI = SAIFI = CAIDI =
0`, exactly like a group with zero total customer count. -/
theorem C9_negative_total_gives_zeros {K : Type} [DecidableEq K]
    (key : Row → K) (df : List Row) (mr : MetricsRow K)
    (h : mr ∈ compute_metrics key df)
    (hneg : sumC (df.filter fun r => key r = mr.key) < 0) :
    mr.SAIDI = 0 ∧ mr.SAIFI = 0 ∧ mr.CAIDI = 0 := by
  obtain ⟨k, -, rfl⟩ := List.mem_map.mp h
  have hc : ¬ sumC (df.filter fun r => key r = k) > 0 := by
    simp only [groupMetrics] at hneg
    exact not_lt.mpr (le_of_lt hneg)
  simp [groupMetrics, hc]

/-- C9 witness: the theorem applied to a dataset whose only row carries
customer count `-5`. -/
theorem C9_witness :
    (groupMetrics (("F2", "Feb") : GKey .monthly) [wRowNeg] ∈
      compute_metrics (groupKey .monthly) [wRowNeg]) ∧
    (sumC ([wRowNeg].filter fun r => groupKey .monthly r =
      (groupMetrics (("F2", "Feb") : GKey .monthly) [wRowNeg]).key) < 0) ∧
    ((groupMetrics (("F2", "Feb") : GKey .monthly) [wRowNeg]).SAIDI = 0 ∧
      (groupMetrics (("F2", "Feb") : GKey .monthly) [wRowNeg]).SAIFI = 0 ∧
      (groupMetrics (("F2", "Feb") : GKey .monthly) [wRowNeg]).CAIDI = 0) :=
  ⟨List.mem_singleton.mpr rfl,
    by show sumC [wRowNeg] < 0
       norm_num [sumC, wRowNeg],
    C9_negative_total_gives_zeros (groupKey .monthly) [wRowNeg] _
      (List.mem_singleton.mpr rfl)
      (by show sumC [wRowNeg] < 0
          norm_num [sumC, wRowNeg])⟩

/-- C10: the Metrics Aggregator's output depends only on the
grouping-column values, `duration_hr` and `customer_count` of the input
rows: two unified datasets agreeing row-for-row on those fields but
differing in `fault_category` or the raw timestamps produce identical
daily, weekly and monthly metrics tables. -/
theorem C10_aggregator_ignores_hidden_fields (d1 d2 : List Row)
    (h : List.Forall₂ agreeVisible d1 d2) :
    compute_metrics (groupKey .daily) d1 = compute_metrics (groupKey .daily) d2 ∧
    compute_metrics (groupKey .weekly) d1 = compute_metrics (groupKey .weekly) d2 ∧
    compute_metrics (groupKey .monthly) d1 = compute_metrics (groupKey .monthly) d2 := by
  refine ⟨?_, ?_, ?_⟩ <;>
    refine compute_metrics_congr _ ?_ h
  · rintro a b ⟨h1, h2, h3, -, -, -⟩
    simp [groupKey, h1, h2, h3]
  · rintro a b ⟨h1, h2, -, h4, -, -⟩
    simp [groupKey, h1, h2, h4]
  · rintro a b ⟨h1, h2, -, -, -, -⟩
    simp [groupKey, h1, h2]

/-- C10 witness: the theorem applied to two one-row datasets differing
only in fault category and raw timestamps. -/
theorem C10_witness :
    compute_metrics (groupKey .daily) [wRow1] =
      compute_metrics (groupKey .daily) [wRow1'] ∧
    compute_metrics (groupKey .weekly) [wRow1] =
      compute_metrics (groupKey .weekly) [wRow1'] ∧
    compute_metrics (groupKey .monthly) [wRow1] =
      compute_metrics (groupKey .monthly) [wRow1'] :=
  C10_aggregator_ignores_hidden_fields [wRow1] [wRow1']
    (List.Forall₂.cons ⟨rfl, rfl, rfl, rfl, rfl, rfl⟩ List.Forall₂.nil)

/-! ## Claims about the Record Ingestor and Dataset Merger -/

/-- C3: for every raw input table (and every behaviour of the external
parsers), the Record Ingestor's output has at most as many rows as the
input; every retained row carries, unchanged, a customer count, duration
and fault category that were present (non-null) after parsing — rows are
never repaired; and any parsed row with a missing required field is
dropped. -/
theorem C3_ingestion_monotone_and_nonnull (ext : ExtFns) (month : String)
    (raws : List RawRow) :
    (ingest ext month raws).length ≤ raws.length ∧
    (∀ r ∈ ingest ext month raws,
      ∃ p ∈ raws.map (prepRow ext month),
        p.customer_count = some r.customer_count ∧
        p.duration_hr = some r.duration_hr ∧
        p.fault_category = some r.fault_category) ∧
    (∀ p ∈ raws.map (prepRow ext month),
      (p.customer_count = none ∨ p.duration_hr = none ∨
        p.fault_category = none) → cleanRow p = none) := by
  refine ⟨?_, ?_, ?_⟩
  · calc (ingest ext month raws).length
        ≤ (raws.map (prepRow ext month)).length :=
          List.length_filterMap_le _ _
      _ = raws.length := List.length_map _ _
  · intro r hr
    obtain ⟨p, hp, hcp⟩ := List.mem_filterMap.mp hr
    refine ⟨p, hp, ?_⟩
    rcases hc : p.customer_count with - | c <;>
      rcases hd : p.duration_hr with - | d <;>
      rcases hf : p.fault_category with - | f <;>
      rw [cleanRow, hc, hd, hf] at hcp <;>
      simp only [reduceCtorEq] at hcp
    have h2 := Option.some.inj hcp
    subst h2
    exact ⟨rfl, rfl, rfl⟩
  · intro p _ h
    rcases hc : p.customer_count with - | c <;>
      rcases hd : p.duration_hr with - | d <;>
      rcases hf : p.fault_category with - | f <;>
      · rw [cleanRow, hc, hd, hf]
        try simp_all

/-- C2 counterexample: a single worksheet holding one raw record all of
whose rows are dropped during cleaning.  Zero periods produced any valid
row, yet the merge does not report an error: the worksheet contributes
an empty table to `all_data`, `pd.concat` succeeds, and the pipeline
silently produces an empty unified dataset. -/
theorem C2_counterexample :
    loadAll badExt [("Jan", [badRaw])] = [[]] ∧
    pdConcat (loadAll badExt [("Jan", [badRaw])]) =
      Except.ok ([] : List Row) :=
  ⟨rfl, rfl⟩

/-- C2 amended: the Dataset Merger reports an error exactly when every
period had zero raw rows; a period whose raw rows were all dropped
during cleaning still contributes an empty table, so the merge then
succeeds and silently yields an empty unified dataset. -/
theorem C2_amended_error_iff_all_sheets_raw_empty (ext : ExtFns)
    (sheets : List (String × List RawRow)) :
    (∃ e, pdConcat (loadAll ext sheets) = Except.error e) ↔
      ∀ s ∈ sheets, s.2 = [] := by
  have h1 : (∃ e, pdConcat (loadAll ext sheets) = Except.error e) ↔
      loadAll ext sheets = [] := by
    unfold pdConcat
    split
    · simp_all
    · simp_all
  rw [h1]
  unfold loadAll
  rw [List.filterMap_eq_nil_iff]
  constructor
  · intro h s hs
    have hsome := h s hs
    by_cases he : s.2.isEmpty
    · exact List.isEmpty_iff.mp he
    · simp [he] at hsome
  · intro h s hs
    simp [List.isEmpty_iff.mpr (h s hs)]

/-! ## Claims about the Query/Filter Layer -/

/-- C6: for every granularity, month and feeder whose filtered metrics
set is non-empty, the Query/Filter Layer returns as the current snapshot
the last row of the filtered set sorted ascending by the granularity's
sub-period field (`Date` for daily, `Week` for weekly, the period label
`Month` itself for monthly) — i.e. a filtered row that every filtered
row compares `≤` to under that field's order — plus the full filtered
set for trend display. -/
theorem C6_query_returns_latest_and_trend (g : Granularity)
    (df : List Row) (m f : String)
    (h : filtered_metrics g df m f ≠ []) :
    ∃ r, (queryLayer g df m f).1 = some r ∧
      r ∈ filtered_metrics g df m f ∧
      (∀ x ∈ filtered_metrics g df m f, rowLe g x r) ∧
      (queryLayer g df m f).2 = filtered_metrics g df m f := by
  haveI : IsTotal (MetricsRow (GKey g)) (rowLe g) := ⟨rowLe_total g⟩
  haveI : IsTrans (MetricsRow (GKey g)) (rowLe g) := ⟨fun _ _ _ => rowLe_trans g⟩
  have hperm := List.perm_insertionSort (rowLe g) (filtered_metrics g df m f)
  have hsorted := List.sorted_insertionSort (rowLe g) (filtered_metrics g df m f)
  have hne : List.insertionSort (rowLe g) (filtered_metrics g df m f) ≠ [] := by
    intro h0
    rw [h0] at hperm
    exact h hperm.symm.eq_nil
  refine ⟨(List.insertionSort (rowLe g) (filtered_metrics g df m f)).getLast hne,
    ?_, ?_, ?_, rfl⟩
  · have hemp : (filtered_metrics g df m f).isEmpty = false := by
      simpa [List.isEmpty_iff] using h
    simp only [queryLayer, hemp, Bool.false_eq_true, if_false]
    exact List.getLast?_eq_getLast _ hne
  · exact hperm.mem_iff.mp (List.getLast_mem hne)
  · intro x hx
    exact rel_getLast_of_sorted (rowLe_refl g) _ hne hsorted x
      (hperm.mem_iff.mpr hx)

/-- C6 witness: the theorem applied at monthly granularity to the
one-row dataset `wDf` with month `"Jan"` and feeder `"F1"`. -/
theorem C6_witness :
    (filtered_metrics .monthly wDf "Jan" "F1" ≠ []) ∧
    ∃ r, (queryLayer .monthly wDf "Jan" "F1").1 = some r ∧
      r ∈ filtered_metrics .monthly wDf "Jan" "F1" ∧
      (∀ x ∈ filtered_metrics .monthly wDf "Jan" "F1", rowLe .monthly x r) ∧
      (queryLayer .monthly wDf "Jan" "F1").2 =
        filtered_metrics .monthly wDf "Jan" "F1" :=
  ⟨by exact fun h0 => List.cons_ne_nil _ _ h0,
    C6_query_returns_latest_and_trend .monthly wDf "Jan" "F1"
      (by exact fun h0 => List.cons_ne_nil _ _ h0)⟩

/-- C7: for every granularity, month and feeder whose filtered metrics
set is empty, the Query/Filter Layer signals an explicit no-data
condition (`none`, rendered as the "No metrics available" warning) and
returns no fabricated metrics row. -/
theorem C7_query_signals_no_data (g : Granularity) (df : List Row)
    (m f : String) (h : filtered_metrics g df m f = []) :
    queryLayer g df m f = (none, []) := by
  simp [queryLayer, h]

/-- C7 witness: the theorem applied at monthly granularity to a
selection matching nothing. -/
theorem C7_witness : queryLayer .monthly wDf "Feb" "F1" = (none, []) :=
  C7_query_signals_no_data .monthly wDf "Feb" "F1" rfl

/-! ## Helper lemmas: Name Normalizer -/

lemma pySplitAux_nil (acc : List Char) :
    pySplitAux [] acc = emitTok acc := rfl

lemma pySplitAux_space {c : Char} (hc : pyIsSpace c = true)
    (cs acc : List Char) :
    pySplitAux (c :: cs) acc = emitTok acc ++ pySplitAux cs [] := by
  by_cases ha : acc = [] <;> simp [pySplitAux, hc, ha, emitTok]

lemma pySplitAux_nonspace {c : Char} (hc : pyIsSpace c = false)
    (cs acc : List Char) :
    pySplitAux (c :: cs) acc = pySplitAux cs (c :: acc) := by
  simp [pySplitAux, hc]

lemma pySplitAux_allSpace {c : Char} {s : List Char}
    (hc : pyIsSpace c = true) (hs : allSpace s) (b acc : List Char) :
    pySplitAux (c :: (s ++ b)) acc = emitTok acc ++ pySplitAux b [] := by
  induction s generalizing c acc with
  | nil => exact pySplitAux_space hc b acc
  | cons d s ih =>
    rw [List.cons_append, pySplitAux_space hc, ih (hs d (by simp))
      (fun e he => hs e (by simp [he]))]
    simp [emitTok]

lemma pySplitAux_token {t : List Char} (ht : noSpace t) (r acc : List Char) :
    pySplitAux (t ++ r) acc = pySplitAux r (t.reverse ++ acc) := by
  induction t generalizing acc with
  | nil => simp
  | cons c t ih =>
    rw [List.cons_append, pySplitAux_nonspace (ht c (by simp)),
      ih (fun d hd => ht d (by simp [hd]))]
    congr 1
    simp

lemma pySplitAux_ne_nil :
    ∀ (s : List Char) {acc : List Char}, acc ≠ [] → pySplitAux s acc ≠ [] := by
  intro s
  induction s with
  | nil =>
    intro acc ha
    rw [pySplitAux_nil]
    simp [emitTok, ha]
  | cons c cs ih =>
    intro acc ha
    by_cases hc : pyIsSpace c
    · rw [pySplitAux_space hc]
      simp [emitTok, ha]
    · rw [pySplitAux_nonspace (by simpa using hc)]
      exact ih (by simp)

lemma pySplit_allSpace_append {s : List Char} (hs : allSpace s)
    (b : List Char) : pySplit (s ++ b) = pySplit b := by
  cases s with
  | nil => rfl
  | cons c s2 =>
    unfold pySplit
    rw [List.cons_append,
      pySplitAux_allSpace (hs c (by simp)) (fun d hd => hs d (by simp [hd]))]
    rfl

lemma pySplitAux_append_allSpace {s : List Char} (hs : allSpace s) :
    ∀ (a acc : List Char), pySplitAux (a ++ s) acc = pySplitAux a acc := by
  intro a
  induction a with
  | nil =>
    intro acc
    cases s with
    | nil => rfl
    | cons c s2 =>
      rw [List.nil_append, show c :: s2 = c :: (s2 ++ []) by simp,
        pySplitAux_allSpace (hs c (by simp)) (fun d hd => hs d (by simp [hd])),
        pySplitAux_nil, pySplitAux_nil]
      simp [emitTok]
  | cons c a ih =>
    intro acc
    by_cases hc : pyIsSpace c
    · rw [List.cons_append, pySplitAux_space hc, pySplitAux_space hc, ih]
    · rw [List.cons_append, pySplitAux_nonspace (by simpa using hc),
        pySplitAux_nonspace (by simpa using hc), ih]

lemma pySplitAux_double_space (a : List Char) :
    ∀ (b acc : List Char),
      pySplitAux (a ++ ' ' :: ' ' :: b) acc = pySplitAux (a ++ ' ' :: b) acc := by
  induction a with
  | nil =>
    intro b acc
    rw [List.nil_append, List.nil_append, pySplitAux_space (by decide),
      pySplitAux_space (by decide), pySplitAux_space (by decide)]
    simp [emitTok]
  | cons c a ih =>
    intro b acc
    by_cases hc : pyIsSpace c
    · rw [List.cons_append, pySplitAux_space hc, List.cons_append,
        pySplitAux_space hc, ih]
    · rw [List.cons_append, pySplitAux_nonspace (by simpa using hc),
        List.cons_append, pySplitAux_nonspace (by simpa using hc), ih]

lemma nfkdChar_ne_nil (c : Char) : nfkdChar c ≠ [] := by
  unfold nfkdChar
  split
  · simp
  · split
    · simp
    · split <;> simp

lemma nfkdChar_space {c : Char} (h : pyIsSpace c = true) :
    ∀ d ∈ nfkdChar c, pyIsSpace d = true := by
  intro d hd
  unfold nfkdChar at hd
  split at hd
  · simp at hd
    subst hd
    decide
  · split at hd
    · rename_i h2
      rw [h2] at h
      exact absurd h (by decide)
    · split at hd
      · rename_i h3
        rw [h3] at h
        exact absurd h (by decide)
      · simp at hd
        subst hd
        exact h

lemma nfkdChar_fix {c d : Char} (hd : d ∈ nfkdChar c) : nfkdChar d = [d] := by
  unfold nfkdChar at hd
  split at hd
  · simp at hd
    subst hd
    decide
  · split at hd
    · rcases List.mem_cons.mp hd with rfl | hd2
      · decide
      · simp at hd2
        subst hd2
        decide
    · split at hd
      · rcases List.mem_cons.mp hd with rfl | hd2
        · decide
        · simp at hd2
          subst hd2
          decide
      · simp at hd
        subst hd
        rename_i h1 h2 h3
        unfold nfkdChar
        rw [if_neg h1, if_neg h2, if_neg h3]

lemma nfkd_ne_nil {s : List Char} (h : s ≠ []) : nfkd s ≠ [] := by
  cases s with
  | nil => exact absurd rfl h
  | cons c cs =>
    unfold nfkd
    rw [List.flatMap_cons]
    intro h0
    exact nfkdChar_ne_nil c (List.append_eq_nil.mp h0).1

lemma nfkd_append (a b : List Char) : nfkd (a ++ b) = nfkd a ++ nfkd b :=
  List.flatMap_append a b nfkdChar

lemma nfkd_allSpace {s : List Char} (hs : allSpace s) : allSpace (nfkd s) := by
  intro d hd
  obtain ⟨c, hc, hdc⟩ := List.mem_flatMap.mp hd
  exact nfkdChar_space (hs c hc) d hdc

lemma mem_nfkd_fix {s : List Char} {d : Char} (hd : d ∈ nfkd s) :
    nfkdChar d = [d] := by
  obtain ⟨c, -, hdc⟩ := List.mem_flatMap.mp hd
  exact nfkdChar_fix hdc

lemma nfkd_eq_self {s : List Char} (h : ∀ c ∈ s, nfkdChar c = [c]) :
    nfkd s = s := by
  induction s with
  | nil => rfl
  | cons c cs ih =>
    unfold nfkd at ih ⊢
    rw [List.flatMap_cons, h c (by simp), ih fun d hd => h d (by simp [hd])]
    rfl

lemma pySplitAux_replaceNbsp (s : List Char) :
    ∀ acc, pySplitAux (replaceNbsp s) acc = pySplitAux s acc := by
  induction s with
  | nil => intro acc; rfl
  | cons c cs ih =>
    intro acc
    have hmap : replaceNbsp (c :: cs) =
        (if c = nbsp then ' ' else c) :: replaceNbsp cs := rfl
    by_cases hn : c = nbsp
    · subst hn
      rw [hmap, if_pos rfl, pySplitAux_space (by decide),
        pySplitAux_space (by decide), ih]
    · rw [hmap, if_neg hn]
      by_cases hc : pyIsSpace c
      · rw [pySplitAux_space hc, pySplitAux_space hc, ih]
      · rw [pySplitAux_nonspace (by simpa using hc),
          pySplitAux_nonspace (by simpa using hc), ih]

lemma pySplit_replaceNbsp (s : List Char) :
    pySplit (replaceNbsp s) = pySplit s :=
  pySplitAux_replaceNbsp s []

lemma pyStrip_decomp (l : List Char) :
    ∃ s1 s2, allSpace s1 ∧ allSpace s2 ∧ l = s1 ++ (pyStrip l ++ s2) := by
  refine ⟨l.takeWhile pyIsSpace,
    ((l.dropWhile pyIsSpace).reverse.takeWhile pyIsSpace).reverse,
    fun c hc => List.mem_takeWhile_imp hc,
    fun c hc => List.mem_takeWhile_imp (List.mem_reverse.mp hc), ?_⟩
  unfold pyStrip
  conv_lhs => rw [← List.takeWhile_append_dropWhile (p := pyIsSpace) (l := l)]
  congr 1
  conv_lhs => rw [← List.reverse_reverse (l.dropWhile pyIsSpace)]
  conv_lhs =>
    rw [← List.takeWhile_append_dropWhile (p := pyIsSpace)
      (l := (l.dropWhile pyIsSpace).reverse)]
  rw [List.reverse_append]

lemma pySplit_pyStrip (s : List Char) : pySplit (pyStrip s) = pySplit s := by
  obtain ⟨s1, s2, h1, h2, hdec⟩ := pyStrip_decomp s
  conv_rhs => rw [hdec]
  rw [pySplit_allSpace_append h1]
  unfold pySplit
  rw [pySplitAux_append_allSpace h2]

lemma mem_of_head?_some {α : Type} {l : List α} {c : α}
    (h : l.head? = some c) : c ∈ l := by
  cases l with
  | nil => simp at h
  | cons a t =>
    rw [List.head?_cons] at h
    rw [← Option.some.inj h]
    exact List.mem_cons_self a t

lemma mem_of_getLast?_some {α : Type} {l : List α} {c : α}
    (h : l.getLast? = some c) : c ∈ l := by
  have hne : l ≠ [] := by
    intro h0
    rw [h0] at h
    simp at h
  rw [List.getLast?_eq_getLast l hne] at h
  rw [← Option.some.inj h]
  exact List.getLast_mem hne

lemma dropWhile_head?_nonspace (l : List Char) {c : Char}
    (h : (l.dropWhile pyIsSpace).head? = some c) : pyIsSpace c = false := by
  have hne : l.dropWhile pyIsSpace ≠ [] := by
    intro h0
    rw [h0] at h
    simp at h
  rw [List.head?_eq_head hne] at h
  rw [← Option.some.inj h]
  exact List.head_dropWhile_not pyIsSpace l hne

lemma pyStrip_headNonspace (l : List Char) : headNonspace (pyStrip l) := by
  intro c hc
  unfold pyStrip at hc
  rw [List.head?_reverse] at hc
  have hY : (l.dropWhile pyIsSpace).reverse.dropWhile pyIsSpace ≠ [] := by
    intro h0
    rw [h0] at hc
    simp at hc
  obtain ⟨t, ht⟩ :=
    List.dropWhile_suffix (l := (l.dropWhile pyIsSpace).reverse) pyIsSpace
  have h2 : ((l.dropWhile pyIsSpace).reverse).getLast? = some c := by
    rw [← ht, List.getLast?_append_of_ne_nil t hY]
    exact hc
  rw [List.getLast?_reverse] at h2
  exact dropWhile_head?_nonspace l h2

lemma pyStrip_lastNonspace (l : List Char) : lastNonspace (pyStrip l) := by
  intro c hc
  unfold pyStrip at hc
  rw [List.getLast?_reverse] at hc
  exact dropWhile_head?_nonspace _ hc

lemma replace_space_eq (c : Char) :
    pyIsSpace (if c = nbsp then ' ' else c) = pyIsSpace c := by
  by_cases h : c = nbsp
  · subst h
    decide
  · rw [if_neg h]

lemma replaceNbsp_headNonspace {s : List Char} (h : headNonspace s) :
    headNonspace (replaceNbsp s) := by
  intro c hc
  unfold replaceNbsp at hc
  rw [List.head?_map] at hc
  cases hs : s.head? with
  | none =>
    rw [hs] at hc
    exact absurd hc (by simp)
  | some a =>
    rw [hs] at hc
    simp only [Option.map_some'] at hc
    rw [← Option.some.inj hc, replace_space_eq]
    exact h a hs

lemma replaceNbsp_lastNonspace {s : List Char} (h : lastNonspace s) :
    lastNonspace (replaceNbsp s) := by
  intro c hc
  unfold replaceNbsp at hc
  rw [List.getLast?_map] at hc
  cases hs : s.getLast? with
  | none =>
    rw [hs] at hc
    exact absurd hc (by simp)
  | some a =>
    rw [hs] at hc
    simp only [Option.map_some'] at hc
    rw [← Option.some.inj hc, replace_space_eq]
    exact h a hs

lemma collapseRuns_cons_cons (c d : Char) (cs : List Char) :
    collapseRuns (c :: d :: cs) =
      if pyIsSpace c then
        (if pyIsSpace d then collapseRuns (d :: cs)
         else ' ' :: collapseRuns (d :: cs))
      else c :: collapseRuns (d :: cs) := rfl

lemma collapseRuns_space_space {c d : Char} (hc : pyIsSpace c = true)
    (hd : pyIsSpace d = true) (cs : List Char) :
    collapseRuns (c :: d :: cs) = collapseRuns (c :: cs) := by
  cases cs with
  | nil => simp [collapseRuns, hc, hd]
  | cons e cs2 => simp [collapseRuns_cons_cons, hc, hd]

lemma joinSp_pySplitAux (n : ℕ) :
    ∀ (s acc : List Char), s.length ≤ n → lastNonspace s →
      (∀ c, s.head? = some c → pyIsSpace c = true → acc ≠ []) →
      joinSp (pySplitAux s acc) = acc.reverse ++ collapseRuns s := by
  induction n with
  | zero =>
    intro s acc hlen _ _
    have hs : s = [] := List.length_eq_zero.mp (Nat.le_zero.mp hlen)
    subst hs
    rw [pySplitAux_nil]
    by_cases ha : acc = []
    · subst ha
      rfl
    · simp [emitTok, ha, collapseRuns, joinSp]
  | succ n ih =>
    intro s acc hlen hlast hhead
    match s with
    | [] =>
      rw [pySplitAux_nil]
      by_cases ha : acc = []
      · subst ha
        rfl
      · simp [emitTok, ha, collapseRuns, joinSp]
    | [c] =>
      have hc : pyIsSpace c = false := hlast c (List.getLast?_singleton c)
      rw [pySplitAux_nonspace hc, pySplitAux_nil]
      simp [emitTok, joinSp, collapseRuns, hc]
    | c :: d :: cs =>
      by_cases hc : pyIsSpace c = true
      · -- leading whitespace: the accumulator is non-empty
        have hacc : acc ≠ [] := hhead c rfl hc
        by_cases hd : pyIsSpace d = true
        · -- two whitespace characters in a row
          have hcs : cs ≠ [] := by
            intro h0
            subst h0
            have hl := hlast d (by
              rw [List.getLast?_cons_cons]
              exact List.getLast?_singleton d)
            rw [hd] at hl
            exact absurd hl (by simp)
          have heq : pySplitAux (c :: d :: cs) acc = pySplitAux (c :: cs) acc := by
            rw [pySplitAux_space hc, pySplitAux_space hc]
            congr 1
            rw [pySplitAux_space hd]
            simp [emitTok]
          have hlast2 : lastNonspace (c :: cs) := by
            intro e he
            apply hlast e
            cases cs with
            | nil => exact absurd rfl hcs
            | cons f cs2 =>
              rw [List.getLast?_cons_cons] at he
              rw [List.getLast?_cons_cons, List.getLast?_cons_cons]
              exact he
          rw [heq, ih (c :: cs) acc (by simp only [List.length_cons] at hlen ⊢; omega)
            hlast2 (fun e he _ => hacc)]
          rw [collapseRuns_space_space hc hd]
        · -- whitespace then a token character
          rw [Bool.not_eq_true] at hd
          have hlast2 : lastNonspace (d :: cs) := by
            intro e he
            apply hlast e
            rw [List.getLast?_cons_cons]
            exact he
          have hT := ih (d :: cs) [] (by simp only [List.length_cons] at hlen ⊢; omega)
            hlast2 (fun e he hsp => by
              rw [List.head?_cons] at he
              rw [← Option.some.inj he, hd] at hsp
              exact absurd hsp (by simp))
          have hTne : pySplitAux (d :: cs) [] ≠ [] := by
            rw [pySplitAux_nonspace hd]
            exact pySplitAux_ne_nil cs (List.cons_ne_nil d [])
          rw [pySplitAux_space hc,
            show emitTok acc = [acc.reverse] from by simp [emitTok, hacc]]
          obtain ⟨t2, ts2, hT2⟩ := List.exists_cons_of_ne_nil hTne
          rw [hT2, List.singleton_append,
            show joinSp (acc.reverse :: t2 :: ts2) =
              acc.reverse ++ ' ' :: joinSp (t2 :: ts2) from rfl,
            ← hT2, hT, collapseRuns_cons_cons, if_pos hc, if_neg (by simp [hd])]
          simp
      · -- token character: extend the accumulator
        rw [Bool.not_eq_true] at hc
        rw [pySplitAux_nonspace hc]
        have hlast2 : lastNonspace (d :: cs) := by
          intro e he
          apply hlast e
          rw [List.getLast?_cons_cons]
          exact he
        rw [ih (d :: cs) (c :: acc) (by simp only [List.length_cons] at hlen ⊢; omega)
          hlast2 (fun e he _ => List.cons_ne_nil c acc)]
        rw [collapseRuns_cons_cons, if_neg (by simp [hc])]
        simp

lemma joinSp_pySplit_eq_collapse {s : List Char} (hlast : lastNonspace s)
    (hhead : headNonspace s) : joinSp (pySplit s) = collapseRuns s := by
  have hB := joinSp_pySplitAux s.length s [] le_rfl hlast
    (fun c hc hsp => by
      rw [hhead c hc] at hsp
      exact absurd hsp (by simp))
  simpa [pySplit] using hB

lemma cleanList_eq_collapse (l : List Char) :
    cleanList l =
      collapseRuns (pyStrip (replaceNbsp (nfkd (pyStrip l)))) := by
  unfold cleanList
  rw [← pySplit_pyStrip (replaceNbsp (nfkd (pyStrip l)))]
  exact joinSp_pySplit_eq_collapse
    (pyStrip_lastNonspace (replaceNbsp (nfkd (pyStrip l))))
    (pyStrip_headNonspace (replaceNbsp (nfkd (pyStrip l))))

lemma pySplit_nfkd_pyStrip (l : List Char) :
    pySplit (nfkd (pyStrip l)) = pySplit (nfkd l) := by
  obtain ⟨s1, s2, h1, h2, hdec⟩ := pyStrip_decomp l
  conv_rhs => rw [hdec]
  rw [nfkd_append, nfkd_append, pySplit_allSpace_append (nfkd_allSpace h1)]
  unfold pySplit
  rw [pySplitAux_append_allSpace (nfkd_allSpace h2)]

lemma cleanList_eq_tokens (l : List Char) :
    cleanList l = joinSp (pySplit (nfkd l)) := by
  unfold cleanList
  rw [pySplit_replaceNbsp, pySplit_nfkd_pyStrip]

lemma mem_joinSp {ts : List (List Char)} {c : Char} (h : c ∈ joinSp ts) :
    c = ' ' ∨ ∃ t ∈ ts, c ∈ t := by
  induction ts with
  | nil => exact absurd h (List.not_mem_nil c)
  | cons t ts ih =>
    cases ts with
    | nil => exact Or.inr ⟨t, by simp, h⟩
    | cons t2 ts2 =>
      rw [show joinSp (t :: t2 :: ts2) = t ++ ' ' :: joinSp (t2 :: ts2)
        from rfl] at h
      rcases List.mem_append.mp h with h | h
      · exact Or.inr ⟨t, by simp, h⟩
      · rcases List.mem_cons.mp h with rfl | h
        · exact Or.inl rfl
        · rcases ih h with h | ⟨u, hu, hcu⟩
          · exact Or.inl h
          · exact Or.inr ⟨u, by simp [hu], hcu⟩

lemma pySplitAux_sub :
    ∀ (s acc : List Char), ∀ t ∈ pySplitAux s acc, ∀ c ∈ t, c ∈ acc ∨ c ∈ s := by
  intro s
  induction s with
  | nil =>
    intro acc t ht c hc
    rw [pySplitAux_nil] at ht
    unfold emitTok at ht
    split at ht
    · exact absurd ht (List.not_mem_nil t)
    · rw [List.mem_singleton] at ht
      subst ht
      exact Or.inl (List.mem_reverse.mp hc)
  | cons a cs ih =>
    intro acc t ht c hc
    by_cases ha : pyIsSpace a = true
    · rw [pySplitAux_space ha] at ht
      rcases List.mem_append.mp ht with ht | ht
      · unfold emitTok at ht
        split at ht
        · exact absurd ht (List.not_mem_nil t)
        · rw [List.mem_singleton] at ht
          subst ht
          exact Or.inl (List.mem_reverse.mp hc)
      · rcases ih [] t ht c hc with h | h
        · exact absurd h (List.not_mem_nil c)
        · exact Or.inr (by simp [h])
    · rw [pySplitAux_nonspace (by simpa using ha)] at ht
      rcases ih (a :: acc) t ht c hc with h | h
      · rcases List.mem_cons.mp h with rfl | h
        · exact Or.inr (by simp)
        · exact Or.inl h
      · exact Or.inr (by simp [h])

lemma mem_replaceNbsp {s : List Char} {c : Char} (h : c ∈ replaceNbsp s) :
    c = ' ' ∨ c ∈ s := by
  unfold replaceNbsp at h
  obtain ⟨d, hd, hfc⟩ := List.mem_map.mp h
  by_cases hn : d = nbsp
  · rw [← hfc, hn]
    simp
  · rw [← hfc, if_neg hn]
    exact Or.inr hd

lemma cleanList_chars_fix (l : List Char) :
    ∀ c ∈ cleanList l, nfkdChar c = [c] := by
  intro c hc
  rw [cleanList] at hc
  rcases mem_joinSp hc with rfl | ⟨t, ht, hct⟩
  · decide
  · rcases pySplitAux_sub _ [] t ht c hct with h | h
    · exact absurd h (List.not_mem_nil c)
    · rcases mem_replaceNbsp h with rfl | h2
      · decide
      · exact mem_nfkd_fix h2

lemma pySplitAux_tokens :
    ∀ (s acc : List Char), noSpace acc →
      ∀ t ∈ pySplitAux s acc, t ≠ [] ∧ noSpace t := by
  intro s
  induction s with
  | nil =>
    intro acc hacc t ht
    rw [pySplitAux_nil] at ht
    unfold emitTok at ht
    split at ht
    · exact absurd ht (List.not_mem_nil t)
    · rename_i hne
      rw [List.mem_singleton] at ht
      subst ht
      exact ⟨by simpa using hne,
        fun c hcm => hacc c (List.mem_reverse.mp hcm)⟩
  | cons a cs ih =>
    intro acc hacc t ht
    by_cases ha : pyIsSpace a = true
    · rw [pySplitAux_space ha] at ht
      rcases List.mem_append.mp ht with ht | ht
      · unfold emitTok at ht
        split at ht
        · exact absurd ht (List.not_mem_nil t)
        · rename_i hne
          rw [List.mem_singleton] at ht
          subst ht
          exact ⟨by simpa using hne,
            fun c hcm => hacc c (List.mem_reverse.mp hcm)⟩
      · exact ih [] (fun c hc => absurd hc (List.not_mem_nil c)) t ht
    · rw [pySplitAux_nonspace (by simpa using ha)] at ht
      refine ih (a :: acc) ?_ t ht
      intro c hcm
      rcases List.mem_cons.mp hcm with rfl | hcm
      · simpa using ha
      · exact hacc c hcm

lemma pySplit_joinSp :
    ∀ (ts : List (List Char)), (∀ t ∈ ts, t ≠ [] ∧ noSpace t) →
      pySplit (joinSp ts) = ts := by
  intro ts
  induction ts with
  | nil => intro; rfl
  | cons t ts ih =>
    intro h
    obtain ⟨htne, htns⟩ := h t (by simp)
    cases ts with
    | nil =>
      show pySplitAux (joinSp [t]) [] = [t]
      rw [show joinSp [t] = t from rfl, ← List.append_nil t,
        pySplitAux_token htns, pySplitAux_nil]
      simp [emitTok, htne]
    | cons t2 ts2 =>
      show pySplitAux (joinSp (t :: t2 :: ts2)) [] = t :: t2 :: ts2
      rw [show joinSp (t :: t2 :: ts2) = t ++ ' ' :: joinSp (t2 :: ts2)
        from rfl, pySplitAux_token htns, pySplitAux_space (by decide)]
      have hrec := ih (fun u hu => h u (by simp [hu]))
      unfold pySplit at hrec
      rw [hrec]
      simp [emitTok, htne]

lemma cleanList_idem (l : List Char) :
    cleanList (cleanList l) = cleanList l := by
  rw [cleanList_eq_tokens (cleanList l), nfkd_eq_self (cleanList_chars_fix l)]
  show joinSp (pySplit (joinSp (pySplit (replaceNbsp (nfkd (pyStrip l)))))) = _
  rw [pySplit_joinSp (pySplit (replaceNbsp (nfkd (pyStrip l))))
    (pySplitAux_tokens _ [] (fun c hc => absurd hc (List.not_mem_nil c)))]
  rfl

lemma cleanList_cons_space (x : List Char) :
    cleanList (' ' :: x) = cleanList x := by
  rw [cleanList_eq_tokens, cleanList_eq_tokens]
  have h1 : nfkd (' ' :: x) = [' '] ++ nfkd x := by
    unfold nfkd
    rw [List.flatMap_cons, show nfkdChar ' ' = [' '] from by decide]
  rw [h1, pySplit_allSpace_append (by
    intro c hc
    rw [List.mem_singleton] at hc
    subst hc
    decide)]

lemma cleanList_append_space (x : List Char) :
    cleanList (x ++ [' ']) = cleanList x := by
  rw [cleanList_eq_tokens, cleanList_eq_tokens]
  congr 1
  rw [nfkd_append, show nfkd [' '] = [' '] from by decide]
  unfold pySplit
  rw [pySplitAux_append_allSpace (by
    intro c hc
    rw [List.mem_singleton] at hc
    subst hc
    decide)]

lemma cleanList_double_space (u v : List Char) :
    cleanList (u ++ ' ' :: ' ' :: v) = cleanList (u ++ ' ' :: v) := by
  rw [cleanList_eq_tokens, cleanList_eq_tokens]
  congr 1
  have h2 : nfkd (u ++ ' ' :: ' ' :: v) = nfkd u ++ ' ' :: ' ' :: nfkd v := by
    rw [show u ++ ' ' :: ' ' :: v = u ++ ([' ', ' '] ++ v) from rfl,
      nfkd_append, nfkd_append, show nfkd [' ', ' '] = [' ', ' '] from by decide]
    rfl
  have h3 : nfkd (u ++ ' ' :: v) = nfkd u ++ ' ' :: nfkd v := by
    rw [show u ++ ' ' :: v = u ++ ([' '] ++ v) from rfl,
      nfkd_append, nfkd_append, show nfkd [' '] = [' '] from by decide]
    rfl
  rw [h2, h3]
  exact pySplitAux_double_space (nfkd u) (nfkd v) []

lemma cleanList_nbsp (u v : List Char) :
    cleanList (u ++ nbsp :: v) = cleanList (u ++ ' ' :: v) := by
  rw [cleanList_eq_tokens, cleanList_eq_tokens]
  have h1 : nfkd (u ++ nbsp :: v) = nfkd (u ++ ' ' :: v) := by
    rw [show u ++ nbsp :: v = u ++ ([nbsp] ++ v) from rfl,
      show u ++ ' ' :: v = u ++ ([' '] ++ v) from rfl,
      nfkd_append, nfkd_append, nfkd_append, nfkd_append,
      show nfkd [nbsp] = [' '] from by decide,
      show nfkd [' '] = [' '] from by decide]
  rw [h1]

lemma nfkdChar_ascii {c : Char} (h : c.toNat < 128) : nfkdChar c = [c] := by
  have h1 : c ≠ nbsp := fun he => absurd h (by rw [he]; decide)
  have h2 : c ≠ eAcute := fun he => absurd h (by rw [he]; decide)
  have h3 : c ≠ acuteAccent := fun he => absurd h (by rw [he]; decide)
  unfold nfkdChar
  rw [if_neg h1, if_neg h2, if_neg h3]

lemma flatten_pySplitAux :
    ∀ (s acc : List Char),
      (pySplitAux s acc).flatten =
        acc.reverse ++ s.filter (fun c => !pyIsSpace c) := by
  intro s
  induction s with
  | nil =>
    intro acc
    rw [pySplitAux_nil]
    unfold emitTok
    split
    · rename_i h
      simp [h]
    · simp
  | cons a cs ih =>
    intro acc
    by_cases ha : pyIsSpace a = true
    · rw [pySplitAux_space ha, List.flatten_append, ih [],
        List.filter_cons_of_neg (by simp [ha])]
      unfold emitTok
      split
      · rename_i h
        simp [h]
      · simp
    · rw [Bool.not_eq_true] at ha
      rw [pySplitAux_nonspace ha, ih (a :: acc),
        List.filter_cons_of_pos (by simp [ha])]
      simp

lemma filter_joinSp :
    ∀ (ts : List (List Char)), (∀ t ∈ ts, noSpace t) →
      (joinSp ts).filter (fun c => !pyIsSpace c) = ts.flatten := by
  intro ts
  induction ts with
  | nil => intro; rfl
  | cons t ts ih =>
    intro h
    cases ts with
    | nil =>
      show t.filter _ = [t].flatten
      rw [List.filter_eq_self.mpr (fun c hc => by simp [h t (by simp) c hc])]
      simp
    | cons t2 ts2 =>
      rw [show joinSp (t :: t2 :: ts2) = t ++ ' ' :: joinSp (t2 :: ts2)
          from rfl,
        List.filter_append, List.filter_cons_of_neg (by decide),
        ih (fun u hu => h u (by simp [hu])),
        List.filter_eq_self.mpr (fun c hc => by simp [h t (by simp) c hc])]
      rfl

lemma cleanList_ascii_filter {x : List Char} (h : ∀ c ∈ x, c.toNat < 128) :
    (cleanList x).filter (fun c => !pyIsSpace c) =
      x.filter (fun c => !pyIsSpace c) := by
  rw [cleanList_eq_tokens, nfkd_eq_self (fun c hc => nfkdChar_ascii (h c hc)),
    filter_joinSp (pySplit x)
      (fun t ht => (pySplitAux_tokens x []
        (fun c hc => absurd hc (List.not_mem_nil c)) t ht).2)]
  have hfl := flatten_pySplitAux x []
  simpa using hfl

/-! ## Claims about the Name Normalizer -/

/-- C5 counterexample: the claim describes the normalization step as
Unicode canonical-decomposition-then-recomposition (NFC), but the source
applies NFKD — compatibility decomposition with no recomposition.  Two
disagreements witness this.  On the precomposed input `é` the source
leaves the decomposed pair `e` + U+0301 while the claimed algorithm
recomposes (keeps) the precomposed `é`.  On the input `´X` (spacing
acute accent, whose NFKD begins with a space while NFC leaves it alone)
the source yields U+0301 followed by `X`, the claimed algorithm yields
`´X`; moreover even with NFKD substituted, a final step that only
collapses whitespace runs to single spaces would keep one leading
space, whereas the code's `' '.join(name.split())` discards
decomposition-produced boundary whitespace entirely — the last
conjunct shows the collapse-only pipeline disagreeing with the code. -/
theorem C5_counterexample :
    clean_feeder_name "é" = (['e', combAcute] : List Char).asString ∧
    specNormalize "é" = "é" ∧
    clean_feeder_name "é" ≠ specNormalize "é" ∧
    clean_feeder_name "´X" = ([combAcute, 'X'] : List Char).asString ∧
    specNormalize "´X" = "´X" ∧
    clean_feeder_name "´X" ≠ specNormalize "´X" ∧
    (collapseRuns (replaceNbsp (nfkd (pyStrip "´X".toList)))).asString ≠
      clean_feeder_name "´X" := by
  refine ⟨by decide, by decide, by decide, by decide, by decide, by decide,
    by decide⟩

/-- C5 (amended): for every input value, the Name Normalizer trims
surrounding whitespace, applies Unicode compatibility decomposition
(NFKD — decomposition without recomposition), replaces non-breaking
spaces with ordinary spaces, and re-spaces the result — collapsing
every internal run of whitespace to a single space and discarding any
leading or trailing whitespace the decomposition introduced — and
never alters letter casing; consequently inputs differing only by such
whitespace or Unicode-representation variants normalize to the same
output.  The conjuncts: (1) the normalizer equals the amended spec
pipeline verbatim; (2)-(4) leading, trailing, and run-length whitespace
invariance; (5) non-breaking-space substitution invariance; (6) a
decomposed/precomposed Unicode-variant pair normalizes identically;
(7) on ASCII input every non-whitespace character — in particular
every cased letter — survives unchanged and in order, so casing is
never altered. -/
theorem C5_amended_normalizer_algorithm :
    (∀ x : String, clean_feeder_name x = amendedSpecNormalize x) ∧
    (∀ x : List Char, cleanList (' ' :: x) = cleanList x) ∧
    (∀ x : List Char, cleanList (x ++ [' ']) = cleanList x) ∧
    (∀ u v : List Char,
      cleanList (u ++ ' ' :: ' ' :: v) = cleanList (u ++ ' ' :: v)) ∧
    (∀ u v : List Char,
      cleanList (u ++ nbsp :: v) = cleanList (u ++ ' ' :: v)) ∧
    (cleanList [eAcute] = cleanList ['e', combAcute]) ∧
    (∀ x : List Char, (∀ c ∈ x, c.toNat < 128) →
      (cleanList x).filter (fun c => !pyIsSpace c) =
        x.filter (fun c => !pyIsSpace c)) :=
  ⟨fun x => congrArg List.asString (cleanList_eq_collapse x.toList),
   cleanList_cons_space, cleanList_append_space, cleanList_double_space,
   cleanList_nbsp, by decide, fun _ h => cleanList_ascii_filter h⟩

/-- C8: the Name Normalizer is idempotent — normalizing an already
normalized string changes nothing. -/
theorem C8_normalizer_idempotent (x : String) :
    clean_feeder_name (clean_feeder_name x) = clean_feeder_name x := by
  unfold clean_feeder_name
  exact congrArg List.asString (cleanList_idem x.toList)
